import Mathlib

/-!
Verification of the `ll_stack` crate: a generic stack backed by a singly
linked list (`src/lib.rs`). The Rust types are embedded shallowly:

* `Link<T> = Option<Box<Node<T>>>` becomes the inductive `Link T`
  (the `Box` is only a heap indirection and disappears in a value model);
* `struct Node<T> { element: T, next: Link<T> }` becomes `Node T`;
* `struct GenericStack<T> { head: Link<T> }` becomes `GenericStack T`.

Mutating methods (`push`, `pop`, `peek_mut`, iterator `next`) are embedded
in state-passing style: they return the result together with the updated
value of `self`.
-/

set_option autoImplicit false

namespace LLStack

mutual

/-- Embeds `type Link<T> = Option<Box<Node<T>>>` from `src/lib.rs`. -/
inductive Link (T : Type) : Type where
  | none : Link T
  | some : Node T → Link T

/-- Embeds `struct Node<T> { element: T, next: Link<T> }` from `src/lib.rs`. -/
inductive Node (T : Type) : Type where
  | mk : T → Link T → Node T

end

/-- The `element` field of a `Node`. -/
def Node.element {T : Type} : Node T → T
  | .mk e _ => e

/-- The `next` field of a `Node`. -/
def Node.next {T : Type} : Node T → Link T
  | .mk _ n => n

/-- Embeds `pub struct GenericStack<T> { head: Link<T> }`. -/
structure GenericStack (T : Type) where
  head : Link T

variable {T : Type}

/-- Embeds `fn new() -> Self { GenericStack { head: None } }`. -/
def GenericStack.new : GenericStack T :=
  { head := Link.none }

/-- Embeds `fn push(&mut self, element: T)`: a new node wrapping `element`
is created, its `next` taking the current head (`self.head.take()`), and
the stack's head is set to this node. State-passing: returns updated stack. -/
def GenericStack.push (s : GenericStack T) (element : T) : GenericStack T :=
  { head := Link.some (Node.mk element s.head) }

/-- Embeds `fn pop(&mut self) -> Option<T>`:
`self.head.take().map(|node| { self.head = node.next; node.element })`.
Returns the optional popped element together with the updated stack
(`head.take()` leaves `None` behind, so the empty case keeps an empty head). -/
def GenericStack.pop (s : GenericStack T) : Option T × GenericStack T :=
  match s.head with
  | Link.none => (none, { head := Link.none })
  | Link.some (Node.mk e rest) => (some e, { head := rest })

/-- Embeds `fn peek(&self) -> Option<&T>`:
`self.head.as_ref().map(|node| &node.element)`. In the value model the
returned shared reference is the value it points to. -/
def GenericStack.peek (s : GenericStack T) : Option T :=
  match s.head with
  | Link.none => none
  | Link.some (Node.mk e _) => some e

/-- Embeds the read made through `fn peek_mut(&mut self) -> Option<&mut T>`:
`self.head.as_mut().map(|node| &mut node.element)`. The returned mutable
reference points at the top element, so reading through it gives `peek`. -/
def GenericStack.peek_mut (s : GenericStack T) : Option T :=
  match s.head with
  | Link.none => none
  | Link.some (Node.mk e _) => some e

/-- Embeds a write through the reference returned by `peek_mut`:
`if let Some(value) = s.peek_mut() { *value = x; }`. The reference is
`&mut node.element` for the head node, so the write replaces exactly the
top element; when the stack is empty, `peek_mut` returns `None` and no
write happens. -/
def GenericStack.peek_mut_set (s : GenericStack T) (x : T) : GenericStack T :=
  match s.head with
  | Link.none => s
  | Link.some (Node.mk _ rest) => { head := Link.some (Node.mk x rest) }

/-- Embeds `#[derive(Clone)]` on `GenericStack`/`Node`: the derived clone
duplicates the whole `Box` chain (a deep copy, node by node). On pure
values a deep copy is the value itself, so `clone` is the identity; the
deep-copy independence the derive provides is exactly that the clone is a
value, not an alias. -/
def GenericStack.clone (s : GenericStack T) : GenericStack T := s

/-- The sequence of elements stored in a chain, top to bottom. This is the
abstraction function used to state specifications. -/
def Link.toList : Link T → List T
  | .none => []
  | .some (.mk e rest) => e :: rest.toList

/-- The sequence of elements of a stack, top to bottom. -/
def GenericStack.toList (s : GenericStack T) : List T :=
  s.head.toList

/-- Number of nodes reachable from a link: the logical size of the chain. -/
def Link.len : Link T → Nat
  | .none => 0
  | .some (.mk _ rest) => 1 + rest.len

/-- Logical size of a stack: number of elements reachable from the top. -/
def GenericStack.len (s : GenericStack T) : Nat :=
  s.head.len

/-- Pushes the elements of `xs` in order (head of `xs` first). -/
def GenericStack.pushAll (s : GenericStack T) (xs : List T) : GenericStack T :=
  xs.foldl GenericStack.push s

/-- Performs `n` successive `pop` calls, collecting the `n` optional
results in order together with the final stack. -/
def GenericStack.popN (s : GenericStack T) : Nat → List (Option T) × GenericStack T
  | 0 => ([], s)
  | n + 1 =>
    let (r, s1) := s.pop
    let (rs, s2) := s1.popN n
    (r :: rs, s2)

@[simp] theorem Link.toList_none : (Link.none : Link T).toList = [] := rfl

@[simp] theorem Link.toList_some (e : T) (rest : Link T) :
    (Link.some (Node.mk e rest)).toList = e :: rest.toList := rfl

@[simp] theorem Link.len_none : (Link.none : Link T).len = 0 := rfl

@[simp] theorem Link.len_some (e : T) (rest : Link T) :
    (Link.some (Node.mk e rest)).len = 1 + rest.len := rfl

@[simp] theorem GenericStack.toList_new : (GenericStack.new : GenericStack T).toList = [] := rfl

@[simp] theorem GenericStack.toList_push (s : GenericStack T) (x : T) :
    (s.push x).toList = x :: s.toList := rfl

theorem GenericStack.toList_pushAll (xs : List T) (s : GenericStack T) :
    (s.pushAll xs).toList = xs.reverse ++ s.toList := by
  induction xs generalizing s with
  | nil => simp [GenericStack.pushAll]
  | cons x xs ih =>
    simp [GenericStack.pushAll] at ih ⊢
    rw [ih]
    simp

theorem Link.len_eq_toList_length : ∀ l : Link T, l.len = l.toList.length
  | .none => rfl
  | .some (.mk _ rest) => by
    simp [Link.len_eq_toList_length rest, Nat.add_comm]

/-- Embeds `pub struct IntoIter<T>(GenericStack<T>)`: the consuming
iterator owns a moved copy of the stack. -/
structure IntoIter (T : Type) where
  stack : GenericStack T

/-- Embeds `fn into_iter(self) -> IntoIter<T> { IntoIter(self) }`. -/
def GenericStack.into_iter (s : GenericStack T) : IntoIter T :=
  { stack := s }

/-- Embeds `Iterator::next` for `IntoIter`: `self.0.pop()`. State-passing:
returns the yielded item and the updated iterator. -/
def IntoIter.next (it : IntoIter T) : Option T × IntoIter T :=
  let (r, s) := it.stack.pop
  (r, { stack := s })

/-- Runs the consuming iterator to exhaustion: repeatedly calls
`IntoIter.next`, collecting the yielded values in order, returning them
together with the exhausted iterator. -/
def IntoIter.drain : IntoIter T → List T × IntoIter T
  | { stack := { head := .none } } =>
    ([], { stack := { head := .none } })
  | { stack := { head := .some (.mk e rest) } } =>
    let (l, it) := IntoIter.drain { stack := { head := rest } }
    (e :: l, it)

/-- Embeds `pub struct Iter<..., T> { next: Option<&Node<T>> }`: the
borrowing iterator holds a cursor into the chain (in the value model the
shared reference chain is the chain itself). -/
structure Iter (T : Type) where
  next : Link T

/-- Embeds `fn iter(&self) -> Iter<T> { Iter { next: self.head.as_deref() } }`.
The stack itself is not modified. -/
def GenericStack.iter (s : GenericStack T) : Iter T :=
  { next := s.head }

/-- Embeds `Iterator::next` for `Iter`:
`self.next.map(|node| { self.next = node.next.as_deref(); &node.element })`.
When the cursor is exhausted, `map` leaves it untouched. -/
def Iter.step (it : Iter T) : Option T × Iter T :=
  match it.next with
  | Link.none => (none, it)
  | Link.some (Node.mk e rest) => (some e, { next := rest })

/-- Runs the borrowing iterator to exhaustion, collecting the yielded
elements in order. -/
def Iter.drainList : Iter T → List T
  | { next := .none } => []
  | { next := .some (.mk e rest) } => e :: Iter.drainList { next := rest }

/-- Embeds `pub struct IterMut<..., T> { next: Option<&mut Node<T>> }`. -/
structure IterMut (T : Type) where
  next : Link T

/-- Embeds `fn iter_mut(&mut self) -> IterMut<T>`:
`IterMut { next: self.head.as_deref_mut() }`. -/
def GenericStack.iter_mut (s : GenericStack T) : IterMut T :=
  { next := s.head }

/-- Embeds `Iterator::next` for `IterMut`:
`self.next.take().map(|node| { self.next = node.next.as_deref_mut(); &mut node.element })`.
Same traversal as `Iter`; the yielded reference is mutable. -/
def IterMut.step (it : IterMut T) : Option T × IterMut T :=
  match it.next with
  | Link.none => (none, it)
  | Link.some (Node.mk e rest) => (some e, { next := rest })

/-- Runs the mutable iterator to exhaustion, reading each yielded element. -/
def IterMut.drainList : IterMut T → List T
  | { next := .none } => []
  | { next := .some (.mk e rest) } => e :: IterMut.drainList { next := rest }

/-- A full pass of `IterMut` in which the client writes `f v` through every
yielded `&mut T` (as in `for v in stack.iter_mut() { *v = f(*v) }`): each
node keeps its place in the chain, only its `element` field is overwritten
through the reference `&mut node.element`. -/
def Link.iterMutWrite (f : T → T) : Link T → Link T
  | .none => .none
  | .some (.mk e rest) => .some (.mk (f e) (rest.iterMutWrite f))

/-- The stack after a full mutable-iterator pass writing `f v` over every
element `v`. -/
def GenericStack.iter_mut_write (s : GenericStack T) (f : T → T) : GenericStack T :=
  { head := s.head.iterMutWrite f }

/-- Number of successful `pop` calls needed to empty the stack: `pop`
succeeds exactly while the head is a node, each success promoting `next`. -/
def GenericStack.popsToEmpty : GenericStack T → Nat
  | { head := .none } => 0
  | { head := .some (.mk _ rest) } => 1 + GenericStack.popsToEmpty { head := rest }

/-- Embeds `impl Display for GenericStack`, the body of the loop
`for v in self.iter() { write!(f, "->{v}")?; }`: the text contributed by
the elements still to be visited by the cursor. `render` stands for the
`Display` instance of the element type. -/
def Link.displayElems (render : T → String) : Link T → String
  | .none => ""
  | .some (.mk e rest) => "->" ++ render e ++ rest.displayElems render

/-- Embeds `fn fmt` of `impl Display for GenericStack`: writes `head`,
then `->{v}` for every `v` yielded by `self.iter()`, then `.`. -/
def GenericStack.display (s : GenericStack T) (render : T → String) : String :=
  "head" ++ s.head.displayElems render ++ "."

/-- Embeds `#[derive(PartialEq)]` on `Node` and `Link` (`Option` compares
`None = None`, `Some = Some` by contents; `Box` compares contents): two
links are equal when both are empty, or both are nodes with equal elements
and equal tails. `beqT` stands for the `PartialEq` instance of `T`. -/
def Link.beq (beqT : T → T → Bool) : Link T → Link T → Bool
  | .none, .none => true
  | .some (.mk e1 r1), .some (.mk e2 r2) => beqT e1 e2 && r1.beq beqT r2
  | _, _ => false

/-- Embeds `#[derive(PartialEq)]` on `GenericStack`: compares the `head`
fields. -/
def GenericStack.beq (beqT : T → T → Bool) (a b : GenericStack T) : Bool :=
  a.head.beq beqT b.head

/-- Models the compiler-derived destructor of the types in `src/lib.rs`
(no `Drop` impl is written): dropping a `Link` drops the boxed `Node` if
present; dropping a `Node` drops its `element`, then drops its `next`
link, recursively. Returns the elements released, in release order. -/
def Link.dropList : Link T → List T
  | .none => []
  | .some (.mk e rest) => e :: rest.dropList

/-- Call depth of the derived destructor: each boxed node's drop glue calls
the drop glue of its `next` link from within its own stack frame, so the
nesting depth is the number of nodes in the chain. An iterative release
(such as a hand-written `Drop` with a `while let` loop) would keep this
depth constant instead. -/
def Link.dropDepth : Link T → Nat
  | .none => 0
  | .some (.mk _ rest) => 1 + rest.dropDepth

theorem GenericStack.popN_toList : ∀ l : Link T,
    GenericStack.popN { head := l } l.toList.length
      = (l.toList.map some, GenericStack.new)
  | .none => rfl
  | .some (.mk e rest) => by
    have ih := GenericStack.popN_toList rest
    simp only [Link.toList_some, List.length_cons, List.map_cons]
    show (some e :: (GenericStack.popN { head := rest } rest.toList.length).1,
      (GenericStack.popN { head := rest } rest.toList.length).2)
      = (some e :: rest.toList.map some, GenericStack.new)
    rw [ih]

theorem IntoIter.drain_eq : ∀ l : Link T,
    IntoIter.drain { stack := { head := l } }
      = (l.toList, { stack := GenericStack.new })
  | .none => by simp [IntoIter.drain]; rfl
  | .some (.mk e rest) => by
    simp [IntoIter.drain, IntoIter.drain_eq rest]

theorem Iter.drainList_eq : ∀ l : Link T, Iter.drainList { next := l } = l.toList
  | .none => by simp [Iter.drainList]
  | .some (.mk e rest) => by
    simp [Iter.drainList, Iter.drainList_eq rest]

theorem GenericStack.popsToEmpty_eq : ∀ l : Link T,
    GenericStack.popsToEmpty { head := l } = l.toList.length
  | .none => by simp [GenericStack.popsToEmpty]
  | .some (.mk e rest) => by
    simp [GenericStack.popsToEmpty, GenericStack.popsToEmpty_eq rest, Nat.add_comm]

theorem Link.iterMutWrite_toList (f : T → T) : ∀ l : Link T,
    (l.iterMutWrite f).toList = l.toList.map f
  | .none => rfl
  | .some (.mk e rest) => by
    simp [Link.iterMutWrite, Link.iterMutWrite_toList f rest]

theorem Link.iterMutWrite_len (f : T → T) : ∀ l : Link T,
    (l.iterMutWrite f).len = l.len
  | .none => rfl
  | .some (.mk e rest) => by
    simp [Link.iterMutWrite, Link.iterMutWrite_len f rest]

theorem Link.displayElems_toList (render : T → String) : ∀ l : Link T,
    l.displayElems render
      = (l.toList.map (fun e => "->" ++ render e)).foldr (fun a b => a ++ b) ""
  | .none => rfl
  | .some (.mk e rest) => by
    simp [Link.displayElems, Link.displayElems_toList render rest, String.append_assoc]

theorem Link.beq_iff_toList (beqT : T → T → Bool)
    (hbeq : ∀ a b : T, beqT a b = true ↔ a = b) :
    ∀ l1 l2 : Link T, Link.beq beqT l1 l2 = true ↔ l1.toList = l2.toList
  | .none, .none => by simp [Link.beq]
  | .none, .some (.mk e r) => by simp [Link.beq]
  | .some (.mk e r), .none => by simp [Link.beq]
  | .some (.mk e1 r1), .some (.mk e2 r2) => by
    simp [Link.beq, Bool.and_eq_true, hbeq e1 e2,
      Link.beq_iff_toList beqT hbeq r1 r2]

theorem Link.dropList_eq_toList : ∀ l : Link T, l.dropList = l.toList
  | .none => rfl
  | .some (.mk e rest) => by
    simp [Link.dropList, Link.dropList_eq_toList rest]

theorem Link.dropDepth_eq_length : ∀ l : Link T, l.dropDepth = l.toList.length
  | .none => rfl
  | .some (.mk e rest) => by
    simp [Link.dropDepth, Link.dropDepth_eq_length rest, Nat.add_comm]

theorem GenericStack.head_toList_pushAll (T : Type) (xs : List T) :
    (GenericStack.pushAll (GenericStack.new : GenericStack T) xs).head.toList
      = xs.reverse := by
  have h := GenericStack.toList_pushAll xs (GenericStack.new : GenericStack T)
  simpa [GenericStack.toList, GenericStack.new] using h

/-- C1: LIFO law. Pushing any sequence `xs` of `n` elements onto an empty
stack and then performing `n` pops yields exactly the pushed values in
reverse push order, each pop succeeding (returning `some`), and leaves the
stack empty. -/
theorem lifo_law (T : Type) (xs : List T) :
    (GenericStack.pushAll (GenericStack.new : GenericStack T) xs).popN xs.length
      = (xs.reverse.map some, GenericStack.new) := by
  have h := GenericStack.popN_toList
    (GenericStack.pushAll (GenericStack.new : GenericStack T) xs).head
  rw [GenericStack.head_toList_pushAll] at h
  rw [show xs.length = xs.reverse.length from (List.length_reverse xs).symm]
  exact h

/-- C2: on an empty stack, `pop` returns `none` (leaving the stack empty),
`peek` returns `none`, and `peek_mut` returns `none`; all three embedded
operations are total Lean functions, so absence is always an explicit
empty result, never a fault. -/
theorem empty_stack_absence (T : Type) :
    (GenericStack.new : GenericStack T).pop = (none, GenericStack.new)
      ∧ (GenericStack.new : GenericStack T).peek = none
      ∧ (GenericStack.new : GenericStack T).peek_mut = none :=
  ⟨rfl, rfl, rfl⟩

/-- C3: after `push x` on any stack `s`, `peek` returns `some x`, and the
logical size (number of elements reachable from the top) is exactly one
greater than before the push. -/
theorem push_peek_size (T : Type) (s : GenericStack T) (x : T) :
    (s.push x).peek = some x ∧ (s.push x).len = s.len + 1 :=
  ⟨rfl, by simp [GenericStack.push, GenericStack.len, Nat.add_comm]⟩

/-- C4: consuming-iterator exhaustion. Draining the consuming iterator of a
stack built by pushing `xs` yields exactly `xs.reverse` (push-reverse
order, `xs.length` values), ending in the iterator over the empty stack,
and calling `next` on that exhausted iterator yields `none` and leaves the
iterator in the same exhausted state. -/
theorem into_iter_exhaustion (T : Type) (xs : List T) :
    (GenericStack.pushAll (GenericStack.new : GenericStack T) xs).into_iter.drain
        = (xs.reverse, GenericStack.new.into_iter)
      ∧ xs.reverse.length = xs.length
      ∧ (GenericStack.new : GenericStack T).into_iter.next
          = (none, GenericStack.new.into_iter) := by
  refine ⟨?_, List.length_reverse xs, rfl⟩
  have h := IntoIter.drain_eq
    (GenericStack.pushAll (GenericStack.new : GenericStack T) xs).head
  rw [GenericStack.head_toList_pushAll] at h
  exact h

/-- C5: deep-copy law. For any non-empty stack `A` (top element `a`),
cloning `A` to `B` and writing `x` through `B.peek_mut` makes `B`'s top
`x` while `A` is unchanged: `A` still peeks `a`, and the clone's chain
below the top is the same sequence as `A`'s. -/
theorem clone_peek_mut_independent (T : Type) (A : GenericStack T) (x a : T)
    (h : A.peek = some a) :
    ((A.clone).peek_mut_set x).peek = some x
      ∧ A.peek = some a
      ∧ ((A.clone).peek_mut_set x).toList.tail = A.toList.tail := by
  obtain ⟨l⟩ := A
  cases l with
  | none => simp [GenericStack.peek] at h
  | some n =>
    cases n with
    | mk e rest => exact ⟨rfl, h, rfl⟩

/-- Witness for C5 at the spec's concrete instance: push 1, 2, 3 onto `A`,
clone to `B`, set `B`'s top to 42 through `peek_mut`; then `B` peeks 42,
`A` still peeks 3, and the chains below the tops agree. -/
theorem clone_peek_mut_independent_witness :
    ((((GenericStack.pushAll (GenericStack.new : GenericStack Nat)
          [1, 2, 3]).clone).peek_mut_set 42).peek = some 42)
      ∧ (GenericStack.pushAll (GenericStack.new : GenericStack Nat)
          [1, 2, 3]).peek = some 3
      ∧ ((((GenericStack.pushAll (GenericStack.new : GenericStack Nat)
          [1, 2, 3]).clone).peek_mut_set 42).toList.tail
          = (GenericStack.pushAll (GenericStack.new : GenericStack Nat)
              [1, 2, 3]).toList.tail) :=
  clone_peek_mut_independent Nat _ 42 3 rfl

/-- C6: rendering contract. For every stack, `Display` produces the literal
text `head`, followed by `->` and the rendered form of each element from
top to bottom, terminated by a trailing `.`; in particular pushing 2 then
4 then 6 onto an empty stack renders exactly `head->6->4->2.`. -/
theorem display_contract :
    (∀ (T : Type) (render : T → String) (s : GenericStack T),
        s.display render
          = "head"
            ++ (s.toList.map (fun e => "->" ++ render e)).foldr (fun a b => a ++ b) ""
            ++ ".")
      ∧ (GenericStack.pushAll (GenericStack.new : GenericStack Nat)
          [2, 4, 6]).display toString = "head->6->4->2." := by
  constructor
  · intro T render s
    simp [GenericStack.display, GenericStack.toList, Link.displayElems_toList]
  · rfl

/-- C7: iterator frame property. A full mutable-iterator pass writing `f`
through every yielded reference preserves the element count and maps the
element sequence pointwise (topology intact, contents only); the borrowing
iterator yields exactly the element sequence without altering it, its
count is stable under re-invocation, and equals the number of successful
pops needed to empty an equal clone. -/
theorem iterator_frame (T : Type) (f : T → T) (s : GenericStack T) :
    (s.iter_mut_write f).len = s.len
      ∧ (s.iter_mut_write f).toList = s.toList.map f
      ∧ s.iter.drainList = s.toList
      ∧ (s.iter_mut_write f).iter.drainList.length = s.iter.drainList.length
      ∧ s.iter.drainList.length = s.clone.popsToEmpty := by
  refine ⟨Link.iterMutWrite_len f s.head, Link.iterMutWrite_toList f s.head,
    Iter.drainList_eq s.head, ?_, ?_⟩
  · show (Iter.drainList { next := s.head.iterMutWrite f }).length
        = (Iter.drainList { next := s.head }).length
    rw [Iter.drainList_eq, Iter.drainList_eq, Link.iterMutWrite_toList]
    simp
  · show (Iter.drainList { next := s.head }).length
        = GenericStack.popsToEmpty { head := s.head }
    rw [Iter.drainList_eq, GenericStack.popsToEmpty_eq]

/-- C8: structural equality. With a lawful element comparison, two stacks
compare equal (under the derived `PartialEq`) exactly when they hold the
same sequence of elements from top to bottom. -/
theorem structural_equality (T : Type) (beqT : T → T → Bool)
    (hbeq : ∀ a b : T, beqT a b = true ↔ a = b) (s t : GenericStack T) :
    s.beq beqT t = true ↔ s.toList = t.toList :=
  Link.beq_iff_toList beqT hbeq s.head t.head

/-- Witness for C8 at concrete stacks over `Nat` with the standard `==`. -/
theorem structural_equality_witness :
    ((GenericStack.pushAll (GenericStack.new : GenericStack Nat) [1, 2]).beq
          (fun a b => a == b) (GenericStack.pushAll GenericStack.new [1, 7]) = true
      ↔ (GenericStack.pushAll (GenericStack.new : GenericStack Nat) [1, 2]).toList
          = (GenericStack.pushAll GenericStack.new [1, 7]).toList) :=
  structural_equality Nat (fun a b => a == b) (fun _ _ => beq_iff_eq) _ _

/-- C9 counterexample: the claim says destruction uses an iterative release
whose destructor call depth stays bounded on long chains. In the code no
`Drop` is implemented, so the compiler-derived destructor recurses through
`next`: its call depth on the 3-element stack is already 3, strictly above
the depth 0 of the empty stack, so the depth grows with the chain instead
of staying constant. -/
theorem drop_release_not_iterative :
    Link.dropDepth (GenericStack.pushAll (GenericStack.new : GenericStack Nat)
        [1, 2, 3]).head = 3
      ∧ Link.dropDepth (GenericStack.new : GenericStack Nat).head = 0
      ∧ ¬ (3 : Nat) ≤ 0 :=
  ⟨rfl, rfl, by decide⟩

/-- C9 amended: destroying a stack releases its entire node chain (every
stored element, top to bottom), but through the derived recursive
destruction of each node's `next` link, whose call depth equals the chain
length — no iterative release is implemented. -/
theorem drop_release_law (T : Type) (s : GenericStack T) :
    s.head.dropList = s.toList ∧ s.head.dropDepth = s.len :=
  ⟨Link.dropList_eq_toList s.head, by
    rw [Link.dropDepth_eq_length, GenericStack.len, Link.len_eq_toList_length]⟩

/-- C10: rendering an empty stack (fresh `new()`, no pushes) yields exactly
the text `head.` — the `head` prefix and the trailing dot, with no `->`
separators, whatever the element renderer. -/
theorem display_empty_stack (T : Type) (render : T → String) :
    (GenericStack.new : GenericStack T).display render = "head." := rfl

end LLStack
